import Mathlib

/-!
Shallow embedding of the derived-query slot (src/derived/slot.rs): the
per-key memoization cell of an incremental computation engine.  Machine
state is the slot's `QueryState`; the runtime capabilities the slot
consumes (current revision, durability summaries, dependency change
oracles, the user query function, the memoization policy) are packaged
as a `DB` record of pure functions.  Cross-thread blocking is
represented by explicit `blocked` outcomes; Rust panics are represented
by `panic` outcomes / `Option` results.
-/

namespace Salsa

/-- Revisions are monotonically increasing counters (`revision.rs`). -/
abbrev Revision := Nat

/-- Durability levels, totally ordered; `LOW = 0` (`durability.rs`). -/
abbrev Durability := Nat

/-- Identifier of a runtime (thread) in the database. -/
abbrev RuntimeId := Nat

/-- Identifier of a dependency (an input slot another query owns). -/
abbrev DepKey := Nat

/-- Identifier of a waiter registered on an in-progress computation
(stands for the sending half of its one-shot channel). -/
abbrev WaiterId := Nat

/-- A value stamped with the durability and the revision at which it
last changed (`runtime::StampedValue`). -/
structure StampedValue (V : Type) where
  value : V
  durability : Durability
  changed_at : Revision
  deriving Repr, DecidableEq

/-- The inputs that went into a query, if tracked
(`slot.rs::MemoInputs`). -/
inductive MemoInputs where
  /-- Non-empty set of inputs, fully known. -/
  | Tracked (inputs : List DepKey)
  /-- Empty set of inputs, fully known. -/
  | NoInputs
  /-- Unknown quantity of inputs. -/
  | Untracked
  deriving Repr, DecidableEq

/-- A memoized outcome (`slot.rs::Memo`). -/
structure Memo (V : Type) where
  value : Option V
  verified_at : Revision
  changed_at : Revision
  durability : Durability
  inputs : MemoInputs
  deriving Repr, DecidableEq

/-- The state of the slot's state cell (`slot.rs::QueryState`).  The
waiting list of an `InProgress` marker holds the senders that blocked
peers registered. -/
inductive QueryState (V : Type) where
  | NotComputed
  | InProgress (id : RuntimeId) (waiting : List WaiterId)
  | Memoized (memo : Memo V)
  deriving Repr, DecidableEq

/-- What `Runtime::execute_query_implementation` hands back after the
user query function ran: the computed value, its stamps, and the
dependencies recorded during execution (`None` when an untracked read
occurred). -/
structure ExecResult (V : Type) where
  value : V
  durability : Durability
  changed_at : Revision
  dependencies : Option (List DepKey)

/-- The runtime capabilities and policy parameters the slot consumes,
fixed for the duration of one read (the runtime guarantees the revision
cannot advance while query threads run). -/
structure DB (V : Type) where
  /-- `Runtime::current_revision`. -/
  current_revision : Revision
  /-- `Runtime::last_changed_revision(d)`. -/
  last_changed_revision : Durability → Revision
  /-- `Runtime::id` of the reading thread. -/
  self_id : RuntimeId
  /-- `Runtime::try_block_on`: `false` means the wait-for edge would
  close a cycle. -/
  try_block_on : RuntimeId → Bool
  /-- Oracle for `Dependency::maybe_changed_since` on each recorded
  input. -/
  input_maybe_changed_since : DepKey → Revision → Bool
  /-- Outcome of executing the user query function at the current
  revision (queries are pure, so this is a fixed record). -/
  execute : ExecResult V
  /-- `MP::memoized_value_eq`. -/
  memoized_value_eq : V → V → Bool
  /-- `MP::should_memoize_value(key)`. -/
  should_memoize_value : Bool

variable {V : Type}

/-- `Memo::has_untracked_input`. -/
def Memo.has_untracked_input (m : Memo V) : Bool :=
  match m.inputs with
  | MemoInputs.Untracked => true
  | _ => false

/-- `Memo::check_durability`: true if this memo is known not to have
changed based on its durability. -/
def Memo.check_durability (m : Memo V) (db : DB V) : Bool :=
  decide (db.last_changed_revision m.durability ≤ m.verified_at)

/-- `Memo::mark_value_as_verified`.  Panics (`none`) when the memo has
no value; otherwise bumps `verified_at` and returns the value stamped
with the stored durability and `changed_at`. -/
def Memo.mark_value_as_verified (m : Memo V) (revision_now : Revision) :
    Option (StampedValue V × Memo V) :=
  match m.value with
  | none => none
  | some v =>
    some (⟨v, m.durability, m.changed_at⟩, { m with verified_at := revision_now })

/-- `Memo::validate_memoized_value`.  Outer `none` is the
`assert!(self.verified_at != revision_now)` panic; inner `none` means
the memo could not be validated (caller must re-execute); inner `some`
carries the stamped value together with the memo as mutated
(`verified_at` bumped). -/
def Memo.validate_memoized_value (m : Memo V) (db : DB V) (revision_now : Revision) :
    Option (Option (StampedValue V) × Memo V) :=
  if m.value.isNone then some (none, m)
  else if m.verified_at = revision_now then none
  else if m.check_durability db then
    (m.mark_value_as_verified revision_now).map fun p => (some p.1, p.2)
  else
    match m.inputs with
    | MemoInputs.Untracked => some (none, m)
    | MemoInputs.NoInputs =>
      (m.mark_value_as_verified revision_now).map fun p => (some p.1, p.2)
    | MemoInputs.Tracked inputs =>
      if inputs.any fun i => db.input_maybe_changed_since i m.verified_at then
        some (none, m)
      else
        (m.mark_value_as_verified revision_now).map fun p => (some p.1, p.2)

/-- Result of `Slot::register_with_in_progress_thread`. -/
inductive RegisterResult where
  /-- `Ok(rx)`: the caller was added to the waiting list. -/
  | registered
  /-- `Err(CycleDetected)`. -/
  | cycle
  deriving Repr, DecidableEq

/-- `Slot::register_with_in_progress_thread`: report a cycle when the
in-progress runtime is ourselves or when the wait-for edge would close
a cycle; otherwise register. -/
def register_with_in_progress_thread (db : DB V) (other_id : RuntimeId) :
    RegisterResult :=
  if other_id = db.self_id then RegisterResult.cycle
  else if db.try_block_on other_id then RegisterResult.registered
  else RegisterResult.cycle

/-- Return value of the `probe` helper (`slot.rs::ProbeState`), with
the cross-thread blocking rendezvous made explicit: `blocked` carries
the state with the caller pushed onto the waiting list. -/
inductive ProbeResult (V : Type) where
  | upToDateOk (v : StampedValue V)
  | upToDateCycle
  | blocked (other : RuntimeId) (newState : QueryState V)
  | staleOrAbsent
  deriving Repr, DecidableEq

/-- `Slot::probe`: one read of the state cell under a lock.  Never
recomputes. -/
def probe (db : DB V) (st : QueryState V) : ProbeResult V :=
  match st with
  | QueryState.NotComputed => ProbeResult.staleOrAbsent
  | QueryState.InProgress id waiting =>
    match register_with_in_progress_thread db id with
    | RegisterResult.registered =>
      ProbeResult.blocked id (QueryState.InProgress id (waiting ++ [db.self_id]))
    | RegisterResult.cycle => ProbeResult.upToDateCycle
  | QueryState.Memoized memo =>
    match memo.value with
    | some v =>
      if memo.verified_at = db.current_revision then
        ProbeResult.upToDateOk ⟨v, memo.durability, memo.changed_at⟩
      else ProbeResult.staleOrAbsent
    | none => ProbeResult.staleOrAbsent

/-- The data of a `PanicGuard`: the memo it owns (the extracted old
memo, later replaced by the new one) and the id of the computing
runtime. -/
structure Guard (V : Type) where
  memo : Option (Memo V)
  runtimeId : RuntimeId

/-- Observable effects of overwriting the `InProgress` placeholder:
the new state, the waiters that were sent a value, and the waiters
whose sinks were dropped (each of those observes sink closure and
propagates the panic). -/
structure HandOff (V : Type) where
  newState : QueryState V
  delivered : List (WaiterId × StampedValue V)
  closedWaiters : List WaiterId
  deriving Repr, DecidableEq

/-- `PanicGuard::overwrite_placeholder`.  `none` models the
`assert_eq!(id, ...)` failure and the "Unexpected panic during query
evaluation" abort when the state is not our `InProgress` marker. -/
def overwrite_placeholder (g : Guard V) (st : QueryState V)
    (new_value : Option (StampedValue V)) : Option (HandOff V) :=
  let newState : QueryState V :=
    match g.memo with
    | some memo => QueryState.Memoized memo
    | none => QueryState.NotComputed
  match st with
  | QueryState.InProgress id waiting =>
    if id = g.runtimeId then
      match new_value with
      | some v => some ⟨newState, waiting.map fun w => (w, v), []⟩
      | none => some ⟨newState, [], waiting⟩
    else none
  | _ => none

/-- Outcome of a `read` (or `read_upgrade`) call.  `blocked` marks the
cross-thread rendezvous (the caller registered as a waiter and will
receive the peer's value), which the sequential embedding leaves
abstract; `panic` marks an unwinding assertion. -/
inductive ReadOutcome (V : Type) where
  | ok (v : StampedValue V)
  | cycle
  | blocked (other : RuntimeId)
  | panic
  deriving Repr, DecidableEq

/-- What a `read` leaves behind: its outcome, the slot's final state,
whether the user query function was executed, and the waiter effects of
the hand-off. -/
structure ReadResult (V : Type) where
  outcome : ReadOutcome V
  state : QueryState V
  executed : Bool
  delivered : List (WaiterId × StampedValue V)
  closedWaiters : List WaiterId
  deriving Repr, DecidableEq

/-- The `InProgress` marker `read_upgrade` installs: owned by the
reading runtime, with an empty waiting list. -/
def inProgressSelf (db : DB V) : QueryState V :=
  QueryState.InProgress db.self_id []

/-- The panic guard's `drop` path as `read_upgrade` reaches it: the
unwinding thread calls `overwrite_placeholder(None)` on the
`InProgress` marker it installed (which, sequentially, still has an
empty waiting list). -/
def unwindResult (db : DB V) (old_memo : Option (Memo V)) (executed : Bool) :
    ReadResult V :=
  match overwrite_placeholder ⟨old_memo, db.self_id⟩ (inProgressSelf db) none with
  | some h => ⟨ReadOutcome.panic, h.newState, executed, h.delivered, h.closedWaiters⟩
  | none => ⟨ReadOutcome.panic, inProgressSelf db, executed, [], []⟩

/-- The backdating step of `read_upgrade` (slot.rs lines 215-237): when
an old memo with a value exists, the new result is at least as durable,
and the policy's equality predicate accepts the pair, the result's
`changed_at` is rewritten to the old memo's.  `none` models the
`assert!(old_memo.changed_at <= result.changed_at)` panic. -/
def backdate (old_memo : Option (Memo V)) (db : DB V) (result : ExecResult V) :
    Option (ExecResult V) :=
  match old_memo with
  | some old =>
    match old.value with
    | some old_value =>
      if old.durability ≤ result.durability ∧
          db.memoized_value_eq old_value result.value = true then
        if old.changed_at ≤ result.changed_at then
          some { result with changed_at := old.changed_at }
        else none
      else some result
    | none => some result
  | none => some result

/-- How `read_upgrade` classifies the recorded dependencies (slot.rs
lines 257-269). -/
def mkInputs (dependencies : Option (List DepKey)) : MemoInputs :=
  match dependencies with
  | none => MemoInputs.Untracked
  | some deps =>
    if deps.isEmpty then MemoInputs.NoInputs else MemoInputs.Tracked deps

/-- The execution half of `read_upgrade` (slot.rs lines 198-282),
reached when there was no old memo or validation failed: run the user
query function, check the revision did not move, backdate, build the
new memo and hand off through the panic guard. -/
def execute_phase (db : DB V) (revision_now : Revision)
    (old_memo : Option (Memo V)) : ReadResult V :=
  let result := db.execute
  if db.current_revision = revision_now then
    match backdate old_memo db result with
    | none => unwindResult db old_memo true
    | some result =>
      let new_value : StampedValue V :=
        ⟨result.value, result.durability, result.changed_at⟩
      let value : Option V :=
        if db.should_memoize_value then some new_value.value else none
      let newMemo : Memo V :=
        { value := value
          verified_at := revision_now
          changed_at := result.changed_at
          durability := result.durability
          inputs := mkInputs result.dependencies }
      match overwrite_placeholder ⟨some newMemo, db.self_id⟩ (inProgressSelf db)
          (some new_value) with
      | some h =>
        ⟨ReadOutcome.ok new_value, h.newState, true, h.delivered, h.closedWaiters⟩
      | none => ⟨ReadOutcome.panic, inProgressSelf db, true, [], []⟩
  else unwindResult db old_memo true

/-- The body of `read_upgrade` once the stale/absent probe extracted
the old memo and installed the `InProgress` marker: try the validation
short-circuit, else execute. -/
def read_upgrade_go (db : DB V) (revision_now : Revision)
    (old_memo : Option (Memo V)) : ReadResult V :=
  match old_memo with
  | some memo =>
    match memo.validate_memoized_value db revision_now with
    | none => unwindResult db (some memo) false
    | some (some value, memo) =>
      match overwrite_placeholder ⟨some memo, db.self_id⟩ (inProgressSelf db)
          (some value) with
      | some h =>
        ⟨ReadOutcome.ok value, h.newState, false, h.delivered, h.closedWaiters⟩
      | none => ⟨ReadOutcome.panic, inProgressSelf db, false, [], []⟩
    | some (none, memo) => execute_phase db revision_now (some memo)
  | none => execute_phase db revision_now none

/-- `Slot::read_upgrade`: probe again under the write lock; when stale
or absent, replace the state with `InProgress` (extracting any prior
memo — a prior `InProgress` is the `unreachable!()`), then validate or
execute. -/
def read_upgrade (db : DB V) (revision_now : Revision) (st : QueryState V) :
    ReadResult V :=
  match probe db st with
  | ProbeResult.upToDateOk v => ⟨ReadOutcome.ok v, st, false, [], []⟩
  | ProbeResult.upToDateCycle => ⟨ReadOutcome.cycle, st, false, [], []⟩
  | ProbeResult.blocked other st => ⟨ReadOutcome.blocked other, st, false, [], []⟩
  | ProbeResult.staleOrAbsent =>
    match st with
    | QueryState.Memoized memo => read_upgrade_go db revision_now (some memo)
    | QueryState.NotComputed => read_upgrade_go db revision_now none
    | QueryState.InProgress id waiting =>
      ⟨ReadOutcome.panic, QueryState.InProgress id waiting, false, [], []⟩

/-- `Slot::read`: probe under the read lock, then fall through to
`read_upgrade` with the fetched revision. -/
def read (db : DB V) (st : QueryState V) : ReadResult V :=
  let revision_now := db.current_revision
  match probe db st with
  | ProbeResult.upToDateOk v => ⟨ReadOutcome.ok v, st, false, [], []⟩
  | ProbeResult.upToDateCycle => ⟨ReadOutcome.cycle, st, false, [], []⟩
  | ProbeResult.blocked other st => ⟨ReadOutcome.blocked other, st, false, [], []⟩
  | ProbeResult.staleOrAbsent => read_upgrade db revision_now st

/-- `Slot::evict` (LRU-driven): clear only the value of a memoized
state, unless the memo has untracked inputs, which pin it. -/
def evict (st : QueryState V) : QueryState V :=
  match st with
  | QueryState.Memoized memo =>
    if memo.has_untracked_input then QueryState.Memoized memo
    else QueryState.Memoized { memo with value := none }
  | st => st

/-- `DiscardIf` of a sweep strategy. -/
inductive DiscardIf where
  | Never
  | Outdated
  | Always
  deriving Repr, DecidableEq

/-- `DiscardWhat` of a sweep strategy. -/
inductive DiscardWhat where
  | Nothing
  | Values
  | Everything
  deriving Repr, DecidableEq

/-- A sweep strategy. -/
structure SweepStrategy where
  discard_if : DiscardIf
  discard_what : DiscardWhat
  deriving Repr, DecidableEq

/-- `Slot::sweep` (slot.rs lines 408-472).  `none` models the
`unreachable!()` aborts on the illegal strategy components and the
`assert!(memo.verified_at <= revision_now)` failure. -/
def sweep (revision_now : Revision) (strategy : SweepStrategy)
    (st : QueryState V) : Option (QueryState V) :=
  match st with
  | QueryState.NotComputed => some QueryState.NotComputed
  | QueryState.InProgress id waiting => some (QueryState.InProgress id waiting)
  | QueryState.Memoized memo =>
    if memo.verified_at ≤ revision_now then
      match strategy.discard_if with
      | DiscardIf.Never => none
      | di =>
        if di = DiscardIf.Outdated ∧ memo.verified_at = revision_now then
          some (QueryState.Memoized memo)
        else if di = DiscardIf.Always ∧ memo.has_untracked_input = true ∧
            memo.verified_at = revision_now then
          some (QueryState.Memoized memo)
        else
          match strategy.discard_what with
          | DiscardWhat.Nothing => none
          | DiscardWhat.Values =>
            some (QueryState.Memoized { memo with value := none })
          | DiscardWhat.Everything => some QueryState.NotComputed
    else none

/-- Outcome of `maybe_changed_since`. -/
inductive MCSOutcome where
  | answer (changed : Bool)
  | blocked (other : RuntimeId)
  | panic
  deriving Repr, DecidableEq

/-- What a `maybe_changed_since` call leaves behind. -/
structure MCSResult (V : Type) where
  outcome : MCSOutcome
  state : QueryState V
  deriving Repr, DecidableEq

/-- The write-back at the end of `maybe_changed_since` (slot.rs lines
905-955): re-probe under the write lock and persist the walk's verdict
when the memo is still there and still unverified. -/
def mcs_write_back (db : DB V) (maybe_changed : Bool) (st : QueryState V) :
    MCSResult V :=
  match st with
  | QueryState.Memoized memo =>
    if memo.verified_at = db.current_revision then
      ⟨MCSOutcome.answer maybe_changed, QueryState.Memoized memo⟩
    else if maybe_changed then
      ⟨MCSOutcome.answer maybe_changed, QueryState.NotComputed⟩
    else
      ⟨MCSOutcome.answer maybe_changed,
        QueryState.Memoized { memo with verified_at := db.current_revision }⟩
  | st => ⟨MCSOutcome.answer maybe_changed, st⟩

/-- `Slot::maybe_changed_since` (slot.rs lines 776-958). -/
def maybe_changed_since (db : DB V) (revision : Revision) (st : QueryState V) :
    MCSResult V :=
  let revision_now := db.current_revision
  match st with
  | QueryState.NotComputed => ⟨MCSOutcome.answer true, QueryState.NotComputed⟩
  | QueryState.InProgress id waiting =>
    match register_with_in_progress_thread db id with
    | RegisterResult.registered =>
      ⟨MCSOutcome.blocked id, QueryState.InProgress id (waiting ++ [db.self_id])⟩
    | RegisterResult.cycle =>
      ⟨MCSOutcome.answer true, QueryState.InProgress id waiting⟩
  | QueryState.Memoized memo =>
    if memo.verified_at = revision_now then
      ⟨MCSOutcome.answer (decide (revision < memo.changed_at)),
        QueryState.Memoized memo⟩
    else if memo.check_durability db then
      mcs_write_back db false (QueryState.Memoized memo)
    else
      match memo.inputs with
      | MemoInputs.Untracked =>
        ⟨MCSOutcome.answer true, QueryState.Memoized memo⟩
      | MemoInputs.NoInputs =>
        mcs_write_back db false (QueryState.Memoized memo)
      | MemoInputs.Tracked inputs =>
        if inputs.isEmpty then
          ⟨MCSOutcome.panic, QueryState.Memoized memo⟩
        else if memo.value.isSome then
          let r := read_upgrade db revision_now (QueryState.Memoized memo)
          match r.outcome with
          | ReadOutcome.ok v =>
            ⟨MCSOutcome.answer (decide (revision < v.changed_at)), r.state⟩
          | ReadOutcome.cycle => ⟨MCSOutcome.answer true, r.state⟩
          | ReadOutcome.blocked other => ⟨MCSOutcome.blocked other, r.state⟩
          | ReadOutcome.panic => ⟨MCSOutcome.panic, r.state⟩
        else
          let maybe_changed :=
            inputs.any fun i => db.input_maybe_changed_since i revision
          mcs_write_back db maybe_changed (QueryState.Memoized memo)

/-- The `Drop` impl of `PanicGuard`, reached only while the thread is
unwinding: `overwrite_placeholder(None)`. -/
def panic_guard_drop (g : Guard V) (st : QueryState V) : Option (HandOff V) :=
  overwrite_placeholder g st none

/-- `changed_at ≤ verified_at` and `verified_at ≤ rev` for a memo. -/
def MemoInv (rev : Revision) (m : Memo V) : Prop :=
  m.changed_at ≤ m.verified_at ∧ m.verified_at ≤ rev

/-- The stamp-ordering invariant of a slot state at revision `rev`. -/
def StateInv (rev : Revision) (st : QueryState V) : Prop :=
  ∀ m : Memo V, st = QueryState.Memoized m → MemoInv rev m

/-- The value stored in a slot state, if any. -/
def stored_value (st : QueryState V) : Option V :=
  match st with
  | QueryState.Memoized m => m.value
  | _ => none

/- Concrete instances used by witnesses and counterexamples. -/

/-- A sample runtime environment: revision 5, durabilities ≥ 2 last
changed at revision 1, low durabilities at revision 5; dependency 9 is
the one that changed (since any revision < 4). -/
def cdb : DB Nat :=
  { current_revision := 5
    last_changed_revision := fun d => if 2 ≤ d then 1 else 5
    self_id := 0
    try_block_on := fun i => i ≠ 3
    input_maybe_changed_since := fun i r => i = 9 ∧ r < 4
    execute := ⟨42, 1, 5, some [3]⟩
    memoized_value_eq := fun a b => a == b
    should_memoize_value := true }

/-- `cdb` with an execution result durable enough to backdate. -/
def cdb_durable : DB Nat := { cdb with execute := ⟨42, 2, 5, some [9]⟩ }

/-- A sample memo: value 42, verified at 3, changed at 2, durability 2,
one tracked input. -/
def cmemo : Memo Nat := ⟨some 42, 3, 2, 2, MemoInputs.Tracked [3]⟩

/-- `cmemo` depending on the changed input 9 with low durability. -/
def cmemo_stale : Memo Nat := ⟨some 42, 3, 2, 0, MemoInputs.Tracked [9]⟩

/-- `cdb` with every durability summary out of date. -/
def cdb_low : DB Nat := { cdb with last_changed_revision := fun _ => 5 }

/-- A durability-2 memo with untracked inputs. -/
def cmemo_untracked : Memo Nat := ⟨some 42, 3, 2, 2, MemoInputs.Untracked⟩

end Salsa

namespace Salsa

/-! ## Claims -/

/-- Claim C9: `evict` on a memoized state whose inputs are not
untracked clears only the value, keeping `verified_at`, `changed_at`,
`durability` and `inputs`; an untracked memo is left entirely
unchanged, so no sequence of evicts removes its value; `NotComputed`
and `InProgress` states are left unchanged. -/
theorem C9_evict_frame :
    (∀ (V : Type) (m : Memo V), m.has_untracked_input = false →
      evict (QueryState.Memoized m) = QueryState.Memoized
        { value := none, verified_at := m.verified_at, changed_at := m.changed_at,
          durability := m.durability, inputs := m.inputs }) ∧
    (∀ (V : Type) (m : Memo V), m.has_untracked_input = true →
      evict (QueryState.Memoized m) = QueryState.Memoized m) ∧
    (∀ (V : Type) (m : Memo V) (n : Nat), m.inputs = MemoInputs.Untracked →
      evict^[n] (QueryState.Memoized m) = QueryState.Memoized m) ∧
    (∀ (V : Type), evict (QueryState.NotComputed : QueryState V) =
      QueryState.NotComputed) ∧
    (∀ (V : Type) (id : RuntimeId) (w : List WaiterId),
      evict (QueryState.InProgress id w : QueryState V) =
        QueryState.InProgress id w) := by
  refine ⟨?_, ?_, ?_, ?_, ?_⟩
  · intro V m h
    simp [evict, h]
  · intro V m h
    simp [evict, h]
  · intro V m n h
    have hu : m.has_untracked_input = true := by
      simp [Memo.has_untracked_input, h]
    induction n with
    | zero => rfl
    | succ k ih =>
      rw [Function.iterate_succ_apply]
      simpa [evict, hu] using ih
  · intro V
    rfl
  · intro V id w
    rfl

/-- Claim C9 witness: evicting the sample memoized state clears only
the value, and any number of evicts leaves an untracked memo intact. -/
theorem C9_evict_frame_witness :
    evict (QueryState.Memoized cmemo) = QueryState.Memoized
      { value := none, verified_at := 3, changed_at := 2, durability := 2,
        inputs := MemoInputs.Tracked [3] } ∧
    evict^[10] (QueryState.Memoized ⟨some 1, 3, 2, 0, MemoInputs.Untracked⟩) =
      QueryState.Memoized ⟨some 1, 3, 2, 0, MemoInputs.Untracked⟩ :=
  ⟨C9_evict_frame.1 Nat cmemo rfl,
   C9_evict_frame.2.2.1 Nat ⟨some 1, 3, 2, 0, MemoInputs.Untracked⟩ 10 rfl⟩

/-- Claim C5: `sweep(revision_now, strategy)` leaves `NotComputed` and
`InProgress` untouched; on a memoized slot `DiscardIf::Never` aborts
(`unreachable!`), and `DiscardWhat::Nothing` aborts whenever the
discard arm is reached; a current memo is kept under `Outdated`, and a
current memo with untracked inputs is kept even under `Always`;
otherwise `Values` clears the memo's value and `Everything` resets the
cell to `NotComputed`. -/
theorem C5_sweep_strategy :
    (∀ (V : Type) (rev : Revision) (strat : SweepStrategy),
      sweep rev strat (QueryState.NotComputed : QueryState V) =
        some QueryState.NotComputed) ∧
    (∀ (V : Type) (rev : Revision) (strat : SweepStrategy) (id : RuntimeId)
        (w : List WaiterId),
      sweep rev strat (QueryState.InProgress id w : QueryState V) =
        some (QueryState.InProgress id w)) ∧
    (∀ (V : Type) (rev : Revision) (m : Memo V) (dw : DiscardWhat),
      m.verified_at ≤ rev →
      sweep rev ⟨DiscardIf.Never, dw⟩ (QueryState.Memoized m) = none) ∧
    (∀ (V : Type) (rev : Revision) (m : Memo V) (di : DiscardIf),
      m.verified_at ≤ rev → di ≠ DiscardIf.Never →
      ¬(di = DiscardIf.Outdated ∧ m.verified_at = rev) →
      ¬(di = DiscardIf.Always ∧ m.has_untracked_input = true ∧
          m.verified_at = rev) →
      sweep rev ⟨di, DiscardWhat.Nothing⟩ (QueryState.Memoized m) = none) ∧
    (∀ (V : Type) (rev : Revision) (m : Memo V) (dw : DiscardWhat),
      m.verified_at = rev →
      sweep rev ⟨DiscardIf.Outdated, dw⟩ (QueryState.Memoized m) =
        some (QueryState.Memoized m)) ∧
    (∀ (V : Type) (rev : Revision) (m : Memo V) (dw : DiscardWhat),
      m.has_untracked_input = true → m.verified_at = rev →
      sweep rev ⟨DiscardIf.Always, dw⟩ (QueryState.Memoized m) =
        some (QueryState.Memoized m)) ∧
    (∀ (V : Type) (rev : Revision) (m : Memo V) (di : DiscardIf),
      m.verified_at ≤ rev → di ≠ DiscardIf.Never →
      ¬(di = DiscardIf.Outdated ∧ m.verified_at = rev) →
      ¬(di = DiscardIf.Always ∧ m.has_untracked_input = true ∧
          m.verified_at = rev) →
      sweep rev ⟨di, DiscardWhat.Values⟩ (QueryState.Memoized m) =
        some (QueryState.Memoized { m with value := none }) ∧
      sweep rev ⟨di, DiscardWhat.Everything⟩ (QueryState.Memoized m) =
        some QueryState.NotComputed) := by
  refine ⟨fun V rev strat => rfl, fun V rev strat id w => rfl, ?_, ?_, ?_, ?_, ?_⟩
  · intro V rev m dw hle
    simp [sweep, hle]
  · intro V rev m di hle hnever hkeep1 hkeep2
    cases di with
    | Never => exact absurd rfl hnever
    | Outdated => simp_all [sweep]
    | Always => simp_all [sweep]
  · intro V rev m dw hver
    have hle : m.verified_at ≤ rev := le_of_eq hver
    simp [sweep, hle, hver]
  · intro V rev m dw hu hver
    have hle : m.verified_at ≤ rev := le_of_eq hver
    simp [sweep, hle, hver, hu]
  · intro V rev m di hle hnever hkeep1 hkeep2
    cases di with
    | Never => exact absurd rfl hnever
    | Outdated => constructor <;> simp_all [sweep]
    | Always => constructor <;> simp_all [sweep]

/-- Claim C5 witness: concrete sweeps at revision 5 of the sample memo
(verified at 3): kept when current under `Outdated`, rejected under
`Never`, value-cleared and fully reset under the discard arms. -/
theorem C5_sweep_strategy_witness :
    sweep 3 ⟨DiscardIf.Outdated, DiscardWhat.Values⟩
      (QueryState.Memoized cmemo) = some (QueryState.Memoized cmemo) ∧
    sweep 5 ⟨DiscardIf.Never, DiscardWhat.Values⟩
      (QueryState.Memoized cmemo) = none ∧
    sweep 5 ⟨DiscardIf.Outdated, DiscardWhat.Values⟩
      (QueryState.Memoized cmemo) =
      some (QueryState.Memoized { cmemo with value := none }) ∧
    sweep 5 ⟨DiscardIf.Outdated, DiscardWhat.Everything⟩
      (QueryState.Memoized cmemo) = some QueryState.NotComputed :=
  ⟨C5_sweep_strategy.2.2.2.2.1 Nat 3 cmemo DiscardWhat.Values rfl,
   C5_sweep_strategy.2.2.1 Nat 5 cmemo DiscardWhat.Values (by decide),
   (C5_sweep_strategy.2.2.2.2.2.2 Nat 5 cmemo DiscardIf.Outdated (by decide)
      (by decide) (by decide) (by decide)).1,
   (C5_sweep_strategy.2.2.2.2.2.2 Nat 5 cmemo DiscardIf.Outdated (by decide)
      (by decide) (by decide) (by decide)).2⟩

/-- Claim C2 counterexample: a panic-guard drop while the guard still
holds the extracted old memo (the case where a stale memo failed
validation and the re-execution panicked) reinstalls that memo: the
slot ends `Memoized`, not `NotComputed` as the claim states (the waiter
sinks are still dropped). -/
theorem C2_counterexample :
    panic_guard_drop ⟨some cmemo, 0⟩ (QueryState.InProgress 0 [5]) =
      some ⟨QueryState.Memoized cmemo, [], [5]⟩ ∧
    QueryState.Memoized cmemo ≠ (QueryState.NotComputed : QueryState Nat) := by
  exact ⟨rfl, by decide⟩

/-- Claim C2 (amended): on unwind, the panic guard's drop path always
succeeds on the `InProgress` marker the computing thread installed,
delivers no value and drops every waiter sink (so each waiter observes
sink closure and propagates the panic), and never leaves the slot
`InProgress`; the slot ends `NotComputed` exactly when the guard holds
no memo, and otherwise ends `Memoized` with the retained memo. -/
theorem C2_panic_guard :
    ∀ (V : Type) (memOpt : Option (Memo V)) (id : RuntimeId)
      (waiting : List WaiterId),
      ∃ h : HandOff V,
        panic_guard_drop ⟨memOpt, id⟩ (QueryState.InProgress id waiting) =
          some h ∧
        h.newState = (match memOpt with
          | some m => QueryState.Memoized m
          | none => QueryState.NotComputed) ∧
        h.delivered = [] ∧
        h.closedWaiters = waiting ∧
        (∀ (i : RuntimeId) (w : List WaiterId),
          h.newState ≠ QueryState.InProgress i w) := by
  intro V memOpt id waiting
  cases memOpt with
  | none =>
    exact ⟨⟨QueryState.NotComputed, [], waiting⟩,
      by simp [panic_guard_drop, overwrite_placeholder], rfl, rfl, rfl,
      fun i w => by simp⟩
  | some m =>
    exact ⟨⟨QueryState.Memoized m, [], waiting⟩,
      by simp [panic_guard_drop, overwrite_placeholder], rfl, rfl, rfl,
      fun i w => by simp⟩

/-- Claim C7: a read that finds the slot `InProgress` under the current
runtime's own id, or whose wait-for edge `try_block_on` refuses,
returns the cycle error without executing the user query function and
without modifying the slot's state. -/
theorem C7_no_cycle_progress :
    (∀ (V : Type) (db : DB V) (waiting : List WaiterId),
      read db (QueryState.InProgress db.self_id waiting) =
        ⟨ReadOutcome.cycle, QueryState.InProgress db.self_id waiting,
          false, [], []⟩) ∧
    (∀ (V : Type) (db : DB V) (id : RuntimeId) (waiting : List WaiterId),
      db.try_block_on id = false →
      read db (QueryState.InProgress id waiting) =
        ⟨ReadOutcome.cycle, QueryState.InProgress id waiting,
          false, [], []⟩) := by
  constructor
  · intro V db waiting
    simp [read, probe, register_with_in_progress_thread]
  · intro V db id waiting hblock
    by_cases hid : id = db.self_id
    · subst hid
      simp [read, probe, register_with_in_progress_thread]
    · simp [read, probe, register_with_in_progress_thread, hid, hblock]

/-- Claim C7 witness: in the sample environment (`self_id = 0`,
`try_block_on 3 = false`), reading a slot in progress on runtime 0 and
one blocked-refused on runtime 3 both return the cycle error
untouched. -/
theorem C7_no_cycle_progress_witness :
    read cdb (QueryState.InProgress 0 [7]) =
      ⟨ReadOutcome.cycle, QueryState.InProgress 0 [7], false, [], []⟩ ∧
    read cdb (QueryState.InProgress 3 [7]) =
      ⟨ReadOutcome.cycle, QueryState.InProgress 3 [7], false, [], []⟩ :=
  ⟨C7_no_cycle_progress.1 Nat cdb [7],
   C7_no_cycle_progress.2 Nat cdb 3 [7] (by decide)⟩

/-- Claim C3: for a memo with a value that is stale
(`verified_at < revision_now`), validation with a passing durability
check bumps `verified_at` and returns the value stamped with the old
`changed_at` without consulting any input (the result is the same for
every input oracle); otherwise `Untracked` inputs fail validation,
`NoInputs` bumps and returns, tracked inputs are asked
`maybe_changed_since(verified_at)` in insertion order — the first
change aborts validation whatever the later inputs would say, and if
none changed `verified_at` is bumped and the old value returned. -/
theorem C3_validate_memoized_value :
    (∀ (V : Type) (db : DB V) (m : Memo V) (v : V)
        (f : DepKey → Revision → Bool),
      m.value = some v → m.verified_at < db.current_revision →
      m.check_durability db = true →
      Memo.validate_memoized_value m { db with input_maybe_changed_since := f }
          db.current_revision =
        some (some ⟨v, m.durability, m.changed_at⟩,
          { m with verified_at := db.current_revision })) ∧
    (∀ (V : Type) (db : DB V) (m : Memo V) (v : V),
      m.value = some v → m.verified_at < db.current_revision →
      m.check_durability db = false → m.inputs = MemoInputs.Untracked →
      m.validate_memoized_value db db.current_revision = some (none, m)) ∧
    (∀ (V : Type) (db : DB V) (m : Memo V) (v : V),
      m.value = some v → m.verified_at < db.current_revision →
      m.check_durability db = false → m.inputs = MemoInputs.NoInputs →
      m.validate_memoized_value db db.current_revision =
        some (some ⟨v, m.durability, m.changed_at⟩,
          { m with verified_at := db.current_revision })) ∧
    (∀ (V : Type) (db : DB V) (m : Memo V) (v : V) (l : List DepKey),
      m.value = some v → m.verified_at < db.current_revision →
      m.check_durability db = false → m.inputs = MemoInputs.Tracked l →
      (l.any fun i => db.input_maybe_changed_since i m.verified_at) = false →
      m.validate_memoized_value db db.current_revision =
        some (some ⟨v, m.durability, m.changed_at⟩,
          { m with verified_at := db.current_revision })) ∧
    (∀ (V : Type) (db : DB V) (m : Memo V) (v : V)
        (pre post : List DepKey) (i : DepKey),
      m.value = some v → m.verified_at < db.current_revision →
      m.check_durability db = false →
      m.inputs = MemoInputs.Tracked (pre ++ i :: post) →
      (∀ j ∈ pre, db.input_maybe_changed_since j m.verified_at = false) →
      db.input_maybe_changed_since i m.verified_at = true →
      m.validate_memoized_value db db.current_revision = some (none, m)) := by
  refine ⟨?_, ?_, ?_, ?_, ?_⟩
  · intro V db m v f hv hlt hdur
    have hne : ¬m.verified_at = db.current_revision := Nat.ne_of_lt hlt
    have hdur' : Memo.check_durability m
        { db with input_maybe_changed_since := f } = true := hdur
    simp [Memo.validate_memoized_value, hv, hne, hdur',
      Memo.mark_value_as_verified]
  · intro V db m v hv hlt hdur hinp
    have hne : ¬m.verified_at = db.current_revision := Nat.ne_of_lt hlt
    simp [Memo.validate_memoized_value, hv, hne, hdur, hinp]
  · intro V db m v hv hlt hdur hinp
    have hne : ¬m.verified_at = db.current_revision := Nat.ne_of_lt hlt
    simp [Memo.validate_memoized_value, hv, hne, hdur, hinp,
      Memo.mark_value_as_verified]
  · intro V db m v l hv hlt hdur hinp hany
    have hne : ¬m.verified_at = db.current_revision := Nat.ne_of_lt hlt
    simp [Memo.validate_memoized_value, hv, hne, hdur, hinp, hany,
      Memo.mark_value_as_verified]
  · intro V db m v pre post i hv hlt hdur hinp hpre hi
    have hne : ¬m.verified_at = db.current_revision := Nat.ne_of_lt hlt
    have hany : ((pre ++ i :: post).any
        fun j => db.input_maybe_changed_since j m.verified_at) = true := by
      simp [List.any_append, hi]
    simp [Memo.validate_memoized_value, hv, hne, hdur, hinp, hany]

/-- Claim C3 witness: the sample stale memo (verified at 3, revision
now 5) validates through its durability without consulting the input
oracle — the same result under an oracle that reports every input
changed — and the low-durability variant depending on changed input 9
fails validation. -/
theorem C3_validate_memoized_value_witness :
    Memo.validate_memoized_value cmemo
        { cdb with input_maybe_changed_since := fun _ _ => true } 5 =
      some (some ⟨42, 2, 2⟩, { cmemo with verified_at := 5 }) ∧
    cmemo_stale.validate_memoized_value cdb 5 = some (none, cmemo_stale) :=
  ⟨C3_validate_memoized_value.1 Nat cdb cmemo 42 (fun _ _ => true) rfl
      (by decide) (by decide),
   C3_validate_memoized_value.2.2.2.2 Nat cdb cmemo_stale 42 [] [] 9 rfl
      (by decide) (by decide) rfl (by simp) (by decide)⟩

/-- Claim C4: `maybe_changed_since(revision)` answers `true` on
`NotComputed`; on a memo verified at the current revision it answers
`changed_at > revision`; on a stale memo a passing durability check
answers `false`, untracked inputs answer `true`, `NoInputs` answers
`false`, tracked inputs without a stored value are compared with
baseline `revision`, and a stored value defers to `read_upgrade`,
comparing the recomputed `changed_at` with `revision`. -/
theorem C4_maybe_changed_since :
    (∀ (V : Type) (db : DB V) (rev : Revision),
      maybe_changed_since db rev (QueryState.NotComputed : QueryState V) =
        ⟨MCSOutcome.answer true, QueryState.NotComputed⟩) ∧
    (∀ (V : Type) (db : DB V) (rev : Revision) (m : Memo V),
      m.verified_at = db.current_revision →
      maybe_changed_since db rev (QueryState.Memoized m) =
        ⟨MCSOutcome.answer (decide (rev < m.changed_at)),
          QueryState.Memoized m⟩) ∧
    (∀ (V : Type) (db : DB V) (rev : Revision) (m : Memo V),
      m.verified_at ≠ db.current_revision → m.check_durability db = true →
      (maybe_changed_since db rev (QueryState.Memoized m)).outcome =
        MCSOutcome.answer false) ∧
    (∀ (V : Type) (db : DB V) (rev : Revision) (m : Memo V),
      m.verified_at ≠ db.current_revision → m.check_durability db = false →
      m.inputs = MemoInputs.Untracked →
      maybe_changed_since db rev (QueryState.Memoized m) =
        ⟨MCSOutcome.answer true, QueryState.Memoized m⟩) ∧
    (∀ (V : Type) (db : DB V) (rev : Revision) (m : Memo V),
      m.verified_at ≠ db.current_revision → m.check_durability db = false →
      m.inputs = MemoInputs.NoInputs →
      (maybe_changed_since db rev (QueryState.Memoized m)).outcome =
        MCSOutcome.answer false) ∧
    (∀ (V : Type) (db : DB V) (rev : Revision) (m : Memo V) (l : List DepKey),
      m.verified_at ≠ db.current_revision → m.check_durability db = false →
      m.inputs = MemoInputs.Tracked l → l ≠ [] → m.value = none →
      (maybe_changed_since db rev (QueryState.Memoized m)).outcome =
        MCSOutcome.answer
          (l.any fun i => db.input_maybe_changed_since i rev)) ∧
    (∀ (V : Type) (db : DB V) (rev : Revision) (m : Memo V) (l : List DepKey)
        (v : V) (sv : StampedValue V),
      m.verified_at ≠ db.current_revision → m.check_durability db = false →
      m.inputs = MemoInputs.Tracked l → l ≠ [] → m.value = some v →
      (read_upgrade db db.current_revision (QueryState.Memoized m)).outcome =
        ReadOutcome.ok sv →
      maybe_changed_since db rev (QueryState.Memoized m) =
        ⟨MCSOutcome.answer (decide (rev < sv.changed_at)),
          (read_upgrade db db.current_revision
            (QueryState.Memoized m)).state⟩) := by
  refine ⟨fun V db rev => rfl, ?_, ?_, ?_, ?_, ?_, ?_⟩
  · intro V db rev m hver
    simp [maybe_changed_since, hver]
  · intro V db rev m hver hdur
    simp [maybe_changed_since, hver, hdur, mcs_write_back]
  · intro V db rev m hver hdur hinp
    simp [maybe_changed_since, hver, hdur, hinp]
  · intro V db rev m hver hdur hinp
    simp [maybe_changed_since, hver, hdur, hinp, mcs_write_back]
  · intro V db rev m l hver hdur hinp hne hval
    have hemp : l.isEmpty = false := by
      cases l with
      | nil => exact absurd rfl hne
      | cons a t => rfl
    simp only [maybe_changed_since, hver, hdur, hinp, hemp, hval,
      mcs_write_back, if_neg hver, Bool.false_eq_true, if_false,
      Option.isSome_none]
    split <;> rfl
  · intro V db rev m l v sv hver hdur hinp hne hval hru
    have hemp : l.isEmpty = false := by
      cases l with
      | nil => exact absurd rfl hne
      | cons a t => rfl
    simp [maybe_changed_since, hver, hdur, hinp, hemp, hval, hru]

/-- Claim C4 witness: concrete checks in the sample environment — a
`NotComputed` slot answers `true`; the sample memo (stale, durability
holds) answers `false`; an untracked stale memo answers `true`; a
value-less tracked memo on the changed input 9 answers by walking the
inputs at the caller's baseline. -/
theorem C4_maybe_changed_since_witness :
    maybe_changed_since cdb 2 (QueryState.NotComputed : QueryState Nat) =
      ⟨MCSOutcome.answer true, QueryState.NotComputed⟩ ∧
    (maybe_changed_since cdb 2 (QueryState.Memoized cmemo)).outcome =
      MCSOutcome.answer false ∧
    maybe_changed_since cdb 2
        (QueryState.Memoized ⟨some 1, 3, 2, 0, MemoInputs.Untracked⟩) =
      ⟨MCSOutcome.answer true,
        QueryState.Memoized ⟨some 1, 3, 2, 0, MemoInputs.Untracked⟩⟩ ∧
    (maybe_changed_since cdb 2
        (QueryState.Memoized ⟨none, 3, 2, 0, MemoInputs.Tracked [9]⟩)).outcome =
      MCSOutcome.answer true :=
  ⟨C4_maybe_changed_since.1 Nat cdb 2,
   C4_maybe_changed_since.2.2.1 Nat cdb 2 cmemo (by decide) (by decide),
   C4_maybe_changed_since.2.2.2.1 Nat cdb 2 ⟨some 1, 3, 2, 0, MemoInputs.Untracked⟩
     (by decide) (by decide) rfl,
   by
     have h := C4_maybe_changed_since.2.2.2.2.2.1 Nat cdb 2
       ⟨none, 3, 2, 0, MemoInputs.Tracked [9]⟩ [9] (by decide) (by decide) rfl
       (by decide) rfl
     simpa using h⟩

/-- Claim C1: in `read_upgrade`, when an old memo with value `v` failed
validation and re-execution yields `v'` with the policy's equality
predicate true on `(v, v')` and a durability no lower than the old
memo's (and the backdating assertion's premise `old.changed_at ≤
new.changed_at` holds), the stamped value returned and the `changed_at`
stored in the new memo equal the old memo's `changed_at`; when the
equality predicate is false or the durability strictly drops, the
returned `changed_at` is the one the execution reported. -/
theorem C1_backdating_law :
    (∀ (V : Type) (db : DB V) (m : Memo V) (v : V),
      m.value = some v →
      m.validate_memoized_value db db.current_revision = some (none, m) →
      m.durability ≤ db.execute.durability →
      db.memoized_value_eq v db.execute.value = true →
      m.changed_at ≤ db.execute.changed_at →
      read_upgrade db db.current_revision (QueryState.Memoized m) =
        ⟨ReadOutcome.ok
            ⟨db.execute.value, db.execute.durability, m.changed_at⟩,
          QueryState.Memoized
            { value := if db.should_memoize_value then some db.execute.value
                else none,
              verified_at := db.current_revision,
              changed_at := m.changed_at,
              durability := db.execute.durability,
              inputs := mkInputs db.execute.dependencies },
          true, [], []⟩) ∧
    (∀ (V : Type) (db : DB V) (m : Memo V) (v : V),
      m.value = some v →
      m.validate_memoized_value db db.current_revision = some (none, m) →
      ¬(m.durability ≤ db.execute.durability ∧
          db.memoized_value_eq v db.execute.value = true) →
      read_upgrade db db.current_revision (QueryState.Memoized m) =
        ⟨ReadOutcome.ok
            ⟨db.execute.value, db.execute.durability, db.execute.changed_at⟩,
          QueryState.Memoized
            { value := if db.should_memoize_value then some db.execute.value
                else none,
              verified_at := db.current_revision,
              changed_at := db.execute.changed_at,
              durability := db.execute.durability,
              inputs := mkInputs db.execute.dependencies },
          true, [], []⟩) := by
  constructor
  · intro V db m v hv hvalid hdur heq hch
    have hne : ¬m.verified_at = db.current_revision := by
      intro h
      rw [Memo.validate_memoized_value] at hvalid
      simp [hv, h] at hvalid
    simp [read_upgrade, probe, hv, hne, read_upgrade_go, hvalid,
      execute_phase, backdate, hdur, heq, hch, overwrite_placeholder,
      inProgressSelf]
  · intro V db m v hv hvalid hnot
    have hne : ¬m.verified_at = db.current_revision := by
      intro h
      rw [Memo.validate_memoized_value] at hvalid
      simp [hv, h] at hvalid
    simp [read_upgrade, probe, hv, hne, read_upgrade_go, hvalid,
      execute_phase, backdate, hnot, overwrite_placeholder, inProgressSelf]

/-- Claim C1 witness: with the durable execution result (value 42 equal
to the old one, durability 2 ≥ 0) the read of the stale sample memo
backdates to `changed_at = 2`; with the low-durability execution result
(durability 1 < 2) the read of the untracked durability-2 memo keeps
the executed `changed_at = 5`. -/
theorem C1_backdating_law_witness :
    read_upgrade cdb_durable 5 (QueryState.Memoized cmemo_stale) =
      ⟨ReadOutcome.ok ⟨42, 2, 2⟩,
        QueryState.Memoized ⟨some 42, 5, 2, 2, MemoInputs.Tracked [9]⟩,
        true, [], []⟩ ∧
    read_upgrade cdb_low 5 (QueryState.Memoized cmemo_untracked) =
      ⟨ReadOutcome.ok ⟨42, 1, 5⟩,
        QueryState.Memoized ⟨some 42, 5, 5, 1, MemoInputs.Tracked [3]⟩,
        true, [], []⟩ := by
  constructor
  · have h := C1_backdating_law.1 Nat cdb_durable cmemo_stale 42 rfl
      (by decide) (by decide) (by decide) (by decide)
    simpa [cdb_durable, cdb, cmemo_stale, mkInputs] using h
  · have h := C1_backdating_law.2 Nat cdb_low cmemo_untracked 42 rfl
      (by decide) (by decide)
    simpa [cdb_low, cdb, cmemo_untracked, mkInputs] using h

/-! Helper lemmas for the stamp-ordering invariant (C8) and the
determinism law (C6). -/

theorem mark_value_as_verified_eq {m : Memo V} {rev : Revision}
    {sv : StampedValue V} {m' : Memo V}
    (h : m.mark_value_as_verified rev = some (sv, m')) :
    m' = { m with verified_at := rev } := by
  cases hv : m.value with
  | none => simp [Memo.mark_value_as_verified, hv] at h
  | some v =>
    simp [Memo.mark_value_as_verified, hv] at h
    exact h.2.symm

theorem validate_memo_cases {m : Memo V} {db : DB V} {rev : Revision}
    {o : Option (StampedValue V)} {m' : Memo V}
    (h : m.validate_memoized_value db rev = some (o, m')) :
    m' = m ∨ m' = { m with verified_at := rev } := by
  cases hv : m.value with
  | none =>
    simp [Memo.validate_memoized_value, hv] at h
    exact Or.inl h.2.symm
  | some v =>
    by_cases h1 : m.verified_at = rev
    · simp [Memo.validate_memoized_value, hv, h1] at h
    · by_cases h2 : m.check_durability db = true
      · simp [Memo.validate_memoized_value, Memo.mark_value_as_verified,
          hv, h1, h2] at h
        exact Or.inr h.2.symm
      · cases hi : m.inputs with
        | Untracked =>
          simp [Memo.validate_memoized_value, hv, h1, h2, hi] at h
          exact Or.inl h.2.symm
        | NoInputs =>
          simp [Memo.validate_memoized_value, Memo.mark_value_as_verified,
            hv, h1, h2, hi] at h
          exact Or.inr h.2.symm
        | Tracked l =>
          by_cases h3 :
              (l.any fun i => db.input_maybe_changed_since i m.verified_at) = true
          · simp [Memo.validate_memoized_value, hv, h1, h2, hi, h3] at h
            exact Or.inl h.2.symm
          · simp [Memo.validate_memoized_value, Memo.mark_value_as_verified,
              hv, h1, h2, hi, h3] at h
            exact Or.inr h.2.symm

theorem backdate_changed_at {old : Option (Memo V)} {db : DB V}
    {r r' : ExecResult V} (h : backdate old db r = some r') :
    r'.changed_at = r.changed_at ∨
      ∃ mo : Memo V, old = some mo ∧ r'.changed_at = mo.changed_at := by
  cases old with
  | none =>
    simp [backdate] at h
    exact Or.inl (by rw [← h])
  | some mo =>
    cases hv : mo.value with
    | none =>
      simp [backdate, hv] at h
      exact Or.inl (by rw [← h])
    | some ov =>
      by_cases hcond : mo.durability ≤ r.durability ∧
          db.memoized_value_eq ov r.value = true
      · by_cases hch : mo.changed_at ≤ r.changed_at
        · simp [backdate, hv, hcond, hch] at h
          exact Or.inr ⟨mo, rfl, by rw [← h]⟩
        · simp [backdate, hv, hcond, hch] at h
      · simp [backdate, hv, hcond] at h
        exact Or.inl (by rw [← h])

theorem unwindResult_inv {db : DB V} {old : Option (Memo V)} {e : Bool}
    (hold : ∀ mo : Memo V, old = some mo → MemoInv db.current_revision mo) :
    StateInv db.current_revision (unwindResult db old e).state := by
  cases old with
  | none =>
    intro m hm
    simp [unwindResult, overwrite_placeholder, inProgressSelf] at hm
  | some mo =>
    intro m hm
    simp [unwindResult, overwrite_placeholder, inProgressSelf] at hm
    exact hm ▸ hold mo rfl

theorem execute_phase_inv {db : DB V} {old : Option (Memo V)}
    (hex : db.execute.changed_at ≤ db.current_revision)
    (hold : ∀ mo : Memo V, old = some mo → MemoInv db.current_revision mo) :
    StateInv db.current_revision
      (execute_phase db db.current_revision old).state := by
  cases hb : backdate old db db.execute with
  | none =>
    have : execute_phase db db.current_revision old =
        unwindResult db old true := by
      simp [execute_phase, hb]
    rw [this]
    exact unwindResult_inv hold
  | some r' =>
    have hch : r'.changed_at ≤ db.current_revision := by
      rcases backdate_changed_at hb with h | ⟨mo, hmo, h⟩
      · exact h ▸ hex
      · exact h ▸ ((hold mo hmo).1.trans (hold mo hmo).2)
    intro m hm
    simp [execute_phase, hb, overwrite_placeholder, inProgressSelf] at hm
    exact hm ▸ ⟨hch, le_rfl⟩

theorem read_upgrade_go_inv {db : DB V} {old : Option (Memo V)}
    (hex : db.execute.changed_at ≤ db.current_revision)
    (hold : ∀ mo : Memo V, old = some mo → MemoInv db.current_revision mo) :
    StateInv db.current_revision
      (read_upgrade_go db db.current_revision old).state := by
  cases old with
  | none =>
    simp only [read_upgrade_go]
    exact execute_phase_inv hex hold
  | some mo =>
    have hmo : MemoInv db.current_revision mo := hold mo rfl
    simp only [read_upgrade_go]
    cases hvv : mo.validate_memoized_value db db.current_revision with
    | none =>
      exact unwindResult_inv
        (fun x hx => by injection hx with hx; exact hx ▸ hmo)
    | some p =>
      obtain ⟨o, m'⟩ := p
      have hm' : MemoInv db.current_revision m' := by
        rcases validate_memo_cases hvv with h | h
        · exact h ▸ hmo
        · exact h ▸ ⟨hmo.1.trans hmo.2, le_rfl⟩
      cases o with
      | none =>
        exact execute_phase_inv hex
          (fun x hx => by injection hx with hx; exact hx ▸ hm')
      | some sv =>
        intro m hm
        simp [overwrite_placeholder, inProgressSelf] at hm
        exact hm ▸ hm'

theorem probe_blocked {db : DB V} {st st' : QueryState V} {o : RuntimeId}
    (hp : probe db st = ProbeResult.blocked o st') :
    ∃ (id : RuntimeId) (w : List WaiterId), st' = QueryState.InProgress id w := by
  cases st with
  | NotComputed => simp [probe] at hp
  | InProgress id w =>
    cases hr : register_with_in_progress_thread db id <;>
      simp [probe, hr] at hp
    exact ⟨id, w ++ [db.self_id], hp.2.symm⟩
  | Memoized memo =>
    cases hv : memo.value with
    | none => simp [probe, hv] at hp
    | some v =>
      by_cases h1 : memo.verified_at = db.current_revision <;>
        simp [probe, hv, h1] at hp

theorem read_upgrade_inv {db : DB V} {st : QueryState V}
    (hex : db.execute.changed_at ≤ db.current_revision)
    (hst : StateInv db.current_revision st) :
    StateInv db.current_revision
      (read_upgrade db db.current_revision st).state := by
  simp only [read_upgrade]
  cases hp : probe db st with
  | upToDateOk v => exact hst
  | upToDateCycle => exact hst
  | blocked other st' =>
    obtain ⟨id, w, rfl⟩ := probe_blocked hp
    intro m hm
    simp at hm
  | staleOrAbsent =>
    cases st with
    | NotComputed => exact read_upgrade_go_inv hex (fun mo hmo => by cases hmo)
    | InProgress id w => exact hst
    | Memoized memo =>
      exact read_upgrade_go_inv hex
        (fun mo hmo => by injection hmo with hmo; exact hmo ▸ hst memo rfl)

theorem read_inv {db : DB V} {st : QueryState V}
    (hex : db.execute.changed_at ≤ db.current_revision)
    (hst : StateInv db.current_revision st) :
    StateInv db.current_revision (read db st).state := by
  simp only [read]
  cases hp : probe db st with
  | upToDateOk v => exact hst
  | upToDateCycle => exact hst
  | blocked other st' =>
    obtain ⟨id, w, rfl⟩ := probe_blocked hp
    intro m hm
    simp at hm
  | staleOrAbsent => exact read_upgrade_inv hex hst

theorem mcs_write_back_inv {db : DB V} {b : Bool} {st : QueryState V}
    (hst : StateInv db.current_revision st) :
    StateInv db.current_revision (mcs_write_back db b st).state := by
  cases st with
  | NotComputed => exact hst
  | InProgress id w => exact hst
  | Memoized memo =>
    have hmemo := hst memo rfl
    by_cases h1 : memo.verified_at = db.current_revision
    · simpa only [mcs_write_back, if_pos h1] using hst
    · cases b with
      | true =>
        intro m hm
        simp [mcs_write_back, h1] at hm
      | false =>
        intro m hm
        simp [mcs_write_back, h1] at hm
        exact hm ▸ ⟨hmemo.1.trans hmemo.2, le_rfl⟩

theorem maybe_changed_since_inv {db : DB V} {rev : Revision}
    {st : QueryState V}
    (hex : db.execute.changed_at ≤ db.current_revision)
    (hst : StateInv db.current_revision st) :
    StateInv db.current_revision (maybe_changed_since db rev st).state := by
  cases st with
  | NotComputed => exact hst
  | InProgress id w =>
    cases hr : register_with_in_progress_thread db id <;> intro m hm <;>
      simp [maybe_changed_since, hr] at hm
  | Memoized memo =>
    by_cases h1 : memo.verified_at = db.current_revision
    · simpa only [maybe_changed_since, if_pos h1] using hst
    · by_cases h2 : memo.check_durability db = true
      · simpa only [maybe_changed_since, if_neg h1, if_pos h2] using
          @mcs_write_back_inv _ db false (QueryState.Memoized memo) hst
      · cases hi : memo.inputs with
        | Untracked =>
          simpa only [maybe_changed_since, if_neg h1, if_neg h2, hi] using hst
        | NoInputs =>
          simpa only [maybe_changed_since, if_neg h1, if_neg h2, hi] using
            @mcs_write_back_inv _ db false (QueryState.Memoized memo) hst
        | Tracked l =>
          by_cases hemp : l.isEmpty = true
          · simpa only [maybe_changed_since, if_neg h1, if_neg h2, hi,
              if_pos hemp] using hst
          · cases hval : memo.value with
            | some v =>
              have hsome : memo.value.isSome = true := by simp [hval]
              have hru := @read_upgrade_inv _ db (QueryState.Memoized memo)
                hex hst
              simp only [maybe_changed_since, if_neg h1, if_neg h2, hi,
                if_neg hemp, if_pos hsome]
              cases ho : (read_upgrade db db.current_revision
                  (QueryState.Memoized memo)).outcome <;> exact hru
            | none =>
              have hsome : memo.value.isSome = false := by simp [hval]
              simp only [maybe_changed_since, if_neg h1, if_neg h2, hi,
                if_neg hemp, hsome, Bool.false_eq_true, if_false]
              exact mcs_write_back_inv hst

theorem validate_some_eq {m : Memo V} {db : DB V} {rev : Revision}
    {sv : StampedValue V} {m' : Memo V}
    (h : m.validate_memoized_value db rev = some (some sv, m')) :
    ∃ v : V, m.value = some v ∧ sv = ⟨v, m.durability, m.changed_at⟩ ∧
      m' = { m with verified_at := rev } := by
  cases hv : m.value with
  | none => simp [Memo.validate_memoized_value, hv] at h
  | some v =>
    refine ⟨v, rfl, ?_⟩
    by_cases h1 : m.verified_at = rev
    · simp [Memo.validate_memoized_value, hv, h1] at h
    · by_cases h2 : m.check_durability db = true
      · simp [Memo.validate_memoized_value, Memo.mark_value_as_verified,
          hv, h1, h2] at h
        exact ⟨h.1.symm, h.2.symm⟩
      · cases hi : m.inputs with
        | Untracked =>
          simp [Memo.validate_memoized_value, hv, h1, h2, hi] at h
        | NoInputs =>
          simp [Memo.validate_memoized_value, Memo.mark_value_as_verified,
            hv, h1, h2, hi] at h
          exact ⟨h.1.symm, h.2.symm⟩
        | Tracked l =>
          by_cases h3 :
              (l.any fun i => db.input_maybe_changed_since i m.verified_at) = true
          · simp [Memo.validate_memoized_value, hv, h1, h2, hi, h3] at h
          · simp [Memo.validate_memoized_value, Memo.mark_value_as_verified,
              hv, h1, h2, hi, h3] at h
            exact ⟨h.1.symm, h.2.symm⟩

theorem validate_none_eq {m : Memo V} {db : DB V} {rev : Revision}
    {m' : Memo V}
    (h : m.validate_memoized_value db rev = some (none, m')) : m' = m := by
  cases hv : m.value with
  | none =>
    simp [Memo.validate_memoized_value, hv] at h
    exact h.symm
  | some v =>
    by_cases h1 : m.verified_at = rev
    · simp [Memo.validate_memoized_value, hv, h1] at h
    · by_cases h2 : m.check_durability db = true
      · simp [Memo.validate_memoized_value, Memo.mark_value_as_verified,
          hv, h1, h2] at h
      · cases hi : m.inputs with
        | Untracked =>
          simp [Memo.validate_memoized_value, hv, h1, h2, hi] at h
          exact h.symm
        | NoInputs =>
          simp [Memo.validate_memoized_value, Memo.mark_value_as_verified,
            hv, h1, h2, hi] at h
        | Tracked l =>
          by_cases h3 :
              (l.any fun i => db.input_maybe_changed_since i m.verified_at) = true
          · simp [Memo.validate_memoized_value, hv, h1, h2, hi, h3] at h
            exact h.symm
          · simp [Memo.validate_memoized_value, Memo.mark_value_as_verified,
              hv, h1, h2, hi, h3] at h

theorem backdate_fields {old : Option (Memo V)} {db : DB V}
    {r r' : ExecResult V} (h : backdate old db r = some r') :
    r'.value = r.value ∧ r'.durability = r.durability ∧
      r'.dependencies = r.dependencies := by
  cases old with
  | none =>
    simp [backdate] at h
    rw [← h]
    exact ⟨rfl, rfl, rfl⟩
  | some mo =>
    cases hv : mo.value with
    | none =>
      simp [backdate, hv] at h
      rw [← h]
      exact ⟨rfl, rfl, rfl⟩
    | some ov =>
      by_cases hcond : mo.durability ≤ r.durability ∧
          db.memoized_value_eq ov r.value = true
      · by_cases hch : mo.changed_at ≤ r.changed_at
        · simp [backdate, hv, hcond, hch] at h
          rw [← h]
          exact ⟨rfl, rfl, rfl⟩
        · simp [backdate, hv, hcond, hch] at h
      · simp [backdate, hv, hcond] at h
        rw [← h]
        exact ⟨rfl, rfl, rfl⟩

theorem backdate_none_value {mo : Memo V} {db : DB V} {r : ExecResult V}
    (hv : mo.value = none) : backdate (some mo) db r = some r := by
  simp [backdate, hv]

theorem unwindResult_outcome {db : DB V} {old : Option (Memo V)} {e : Bool} :
    (unwindResult db old e).outcome = ReadOutcome.panic := by
  cases old <;> simp [unwindResult, overwrite_placeholder, inProgressSelf]

theorem execute_phase_unwind {db : DB V} {old : Option (Memo V)}
    (hb : backdate old db db.execute = none) :
    execute_phase db db.current_revision old = unwindResult db old true := by
  simp [execute_phase, hb]

theorem execute_phase_ok {db : DB V} {old : Option (Memo V)}
    {r' : ExecResult V} (hb : backdate old db db.execute = some r') :
    execute_phase db db.current_revision old =
      ⟨ReadOutcome.ok ⟨r'.value, r'.durability, r'.changed_at⟩,
        QueryState.Memoized
          ⟨if db.should_memoize_value then some r'.value else none,
            db.current_revision, r'.changed_at, r'.durability,
            mkInputs r'.dependencies⟩,
        true, [], []⟩ := by
  simp [execute_phase, hb, overwrite_placeholder, inProgressSelf]

theorem read_probe_hit {db : DB V} {st : QueryState V} {v : StampedValue V}
    (hp : probe db st = ProbeResult.upToDateOk v) :
    read db st = ⟨ReadOutcome.ok v, st, false, [], []⟩ := by
  simp [read, hp]

theorem probe_memoized_now {db : DB V} {m : Memo V} {v : V}
    (hv : m.value = some v) (hver : m.verified_at = db.current_revision) :
    probe db (QueryState.Memoized m) =
      ProbeResult.upToDateOk ⟨v, m.durability, m.changed_at⟩ := by
  simp [probe, hv, hver]

theorem probe_inprogress_not_stale {db : DB V} {id : RuntimeId}
    {w : List WaiterId}
    (hp : probe db (QueryState.InProgress id w : QueryState V) =
      ProbeResult.staleOrAbsent) : False := by
  cases hr : register_with_in_progress_thread db id <;>
    simp [probe, hr] at hp

/-- The exec-result memo a non-memoizing read writes back. -/
theorem read_nomemo {db : DB V} (hmz : db.should_memoize_value = false) :
    read db (QueryState.Memoized
        ⟨none, db.current_revision, db.execute.changed_at,
          db.execute.durability, mkInputs db.execute.dependencies⟩) =
      ⟨ReadOutcome.ok
          ⟨db.execute.value, db.execute.durability, db.execute.changed_at⟩,
        QueryState.Memoized
          ⟨none, db.current_revision, db.execute.changed_at,
            db.execute.durability, mkInputs db.execute.dependencies⟩,
        true, [], []⟩ := by
  simp [read, probe, read_upgrade, read_upgrade_go,
    Memo.validate_memoized_value, execute_phase, backdate,
    overwrite_placeholder, inProgressSelf, hmz]

theorem read_ok_cases {db : DB V} {st : QueryState V} {v1 : StampedValue V}
    (hpol : db.should_memoize_value = false → stored_value st = none)
    (h : (read db st).outcome = ReadOutcome.ok v1) :
    (probe db st = ProbeResult.upToDateOk v1 ∧
      read db st = ⟨ReadOutcome.ok v1, st, false, [], []⟩) ∨
    (∃ m' : Memo V, (read db st).state = QueryState.Memoized m' ∧
      m'.verified_at = db.current_revision ∧
      m'.changed_at = v1.changed_at ∧ m'.durability = v1.durability ∧
      m'.value = (if db.should_memoize_value then some v1.value else none) ∧
      (db.should_memoize_value = false →
        v1 = ⟨db.execute.value, db.execute.durability,
          db.execute.changed_at⟩ ∧
        m'.inputs = mkInputs db.execute.dependencies)) := by
  cases hp : probe db st with
  | upToDateOk v =>
    have hr : read db st = ⟨ReadOutcome.ok v, st, false, [], []⟩ :=
      read_probe_hit hp
    rw [hr] at h
    injection h with h
    subst h
    exact Or.inl ⟨rfl, hr⟩
  | upToDateCycle =>
    rw [show read db st = ⟨ReadOutcome.cycle, st, false, [], []⟩ from by
      simp [read, hp]] at h
    cases h
  | blocked other st' =>
    rw [show read db st = ⟨ReadOutcome.blocked other, st', false, [], []⟩ from by
      simp [read, hp]] at h
    cases h
  | staleOrAbsent =>
    have hr : read db st = read_upgrade db db.current_revision st := by
      simp [read, hp]
    rw [hr] at h ⊢
    cases st with
    | InProgress id w => exact (probe_inprogress_not_stale hp).elim
    | NotComputed =>
      have hb : backdate (none : Option (Memo V)) db db.execute =
          some db.execute := rfl
      have hru : read_upgrade db db.current_revision
          (QueryState.NotComputed : QueryState V) =
          execute_phase db db.current_revision none := by
        simp [read_upgrade, probe, read_upgrade_go]
      rw [hru, execute_phase_ok hb] at h ⊢
      injection h with h
      rw [← h]
      exact Or.inr ⟨_, rfl, rfl, rfl, rfl, rfl, fun _ => ⟨rfl, rfl⟩⟩
    | Memoized memo =>
      have hru : read_upgrade db db.current_revision
          (QueryState.Memoized memo) =
          read_upgrade_go db db.current_revision (some memo) := by
        simp [read_upgrade, hp]
      rw [hru] at h ⊢
      cases hvv : memo.validate_memoized_value db db.current_revision with
      | none =>
        rw [show read_upgrade_go db db.current_revision (some memo) =
            unwindResult db (some memo) false from by
          simp [read_upgrade_go, hvv], unwindResult_outcome] at h
        cases h
      | some p =>
        obtain ⟨o, m'⟩ := p
        cases o with
        | some sv =>
          obtain ⟨v, hv, hsv, hm'⟩ := validate_some_eq hvv
          have hgo : read_upgrade_go db db.current_revision (some memo) =
              ⟨ReadOutcome.ok sv, QueryState.Memoized m', false, [], []⟩ := by
            simp [read_upgrade_go, hvv, overwrite_placeholder, inProgressSelf]
          rw [hgo] at h ⊢
          injection h with h
          subst h
          have hmz : db.should_memoize_value = true := by
            cases hbm : db.should_memoize_value with
            | true => rfl
            | false =>
              have hsv' := hpol hbm
              rw [show stored_value (QueryState.Memoized memo) = memo.value
                  from rfl, hv] at hsv'
              cases hsv'
          refine Or.inr ⟨m', rfl, ?_, ?_, ?_, ?_, ?_⟩
          · rw [hm']
          · rw [hm', hsv]
          · rw [hm', hsv]
          · simp [hm', hmz, hsv, hv]
          · intro hf
            rw [hmz] at hf
            cases hf
        | none =>
          have hme := validate_none_eq hvv
          rw [hme] at hvv
          have hgo : read_upgrade_go db db.current_revision (some memo) =
              execute_phase db db.current_revision (some memo) := by
            simp [read_upgrade_go, hvv]
          rw [hgo] at h ⊢
          cases hb : backdate (some memo) db db.execute with
          | none =>
            rw [execute_phase_unwind hb, unwindResult_outcome] at h
            cases h
          | some r' =>
            rw [execute_phase_ok hb] at h ⊢
            injection h with h
            rw [← h]
            refine Or.inr ⟨_, rfl, rfl, rfl, rfl, rfl, fun hmz => ?_⟩
            have hvn : memo.value = none := by
              have hsv' := hpol hmz
              rwa [show stored_value (QueryState.Memoized memo) = memo.value
                from rfl] at hsv'
            rw [backdate_none_value hvn] at hb
            injection hb with hb
            subst hb
            exact ⟨rfl, rfl⟩

/-- Claim C6: within one revision (no mutation between the calls), two
successful reads return the same stamped value — equal value and equal
`changed_at` — and the second read leaves the state untouched; in
particular, once a memoizing read has stored a memo verified at
`revision_now`, every subsequent read takes the probe's memoized path
(`probe` answers `UpToDate` with the stored value and stamps).  The
policy-consistency hypothesis says a non-memoizing query's slot holds
no stored value. -/
theorem C6_determinism :
    ∀ (V : Type) (db : DB V) (st : QueryState V) (v1 : StampedValue V),
      (db.should_memoize_value = false → stored_value st = none) →
      (read db st).outcome = ReadOutcome.ok v1 →
      (read db (read db st).state).outcome = ReadOutcome.ok v1 ∧
      (read db (read db st).state).state = (read db st).state ∧
      (db.should_memoize_value = true →
        probe db (read db st).state = ProbeResult.upToDateOk v1) := by
  intro V db st v1 hpol h
  rcases read_ok_cases hpol h with ⟨hp, hr⟩ |
    ⟨m', hstate, hver, hch, hdur, hval, himp⟩
  · have hs : (read db st).state = st := by rw [hr]
    rw [hs, hr]
    exact ⟨rfl, rfl, fun _ => hp⟩
  · cases hmz : db.should_memoize_value with
    | true =>
      have hv' : m'.value = some v1.value := by simp [hval, hmz]
      have hp2 : probe db (QueryState.Memoized m') =
          ProbeResult.upToDateOk v1 := by
        rw [probe_memoized_now hv' hver, hch, hdur]
      rw [hstate, read_probe_hit hp2]
      exact ⟨rfl, rfl, fun _ => hp2⟩
    | false =>
      obtain ⟨hv1, hinp⟩ := himp hmz
      have hvn : m'.value = none := by simp [hval, hmz]
      have hm'eq : m' = ⟨none, db.current_revision, db.execute.changed_at,
          db.execute.durability, mkInputs db.execute.dependencies⟩ := by
        cases m' with
        | mk a b c d e =>
          subst hv1
          simp_all
      rw [hstate, hm'eq, read_nomemo hmz]
      refine ⟨?_, rfl, ?_⟩
      · rw [hv1]
      · intro hf
        exact Bool.noConfusion hf

/-- Claim C6 witness: in the sample environment, the read of a
`NotComputed` slot stores a memo verified at revision 5 and a second
read of the resulting state returns the same stamped value through the
memoized probe path, leaving the state unchanged. -/
theorem C6_determinism_witness :
    (read cdb (read cdb (QueryState.NotComputed : QueryState Nat)).state).outcome =
      ReadOutcome.ok ⟨42, 1, 5⟩ ∧
    (read cdb (read cdb (QueryState.NotComputed : QueryState Nat)).state).state =
      (read cdb (QueryState.NotComputed : QueryState Nat)).state ∧
    probe cdb (read cdb (QueryState.NotComputed : QueryState Nat)).state =
      ProbeResult.upToDateOk ⟨42, 1, 5⟩ :=
  have h := C6_determinism Nat cdb QueryState.NotComputed ⟨42, 1, 5⟩
    (fun hf => by cases hf) (by decide)
  ⟨h.1, h.2.1, h.2.2 rfl⟩

/-- Claim C8: the stamp-ordering invariant `changed_at ≤ verified_at ≤
current_revision` is preserved by every memo-writing operation: by
`mark_value_as_verified`, by the full read pipeline (including the memo
constructed after execution and the backdate), and by
`maybe_changed_since` with its write-back — given that the execution
wrapper reports a `changed_at` no later than the current revision. -/
theorem C8_stamp_ordering :
    (∀ (V : Type) (rev : Revision) (m m' : Memo V) (sv : StampedValue V),
      MemoInv rev m → m.mark_value_as_verified rev = some (sv, m') →
      MemoInv rev m') ∧
    (∀ (V : Type) (db : DB V) (st : QueryState V),
      db.execute.changed_at ≤ db.current_revision →
      StateInv db.current_revision st →
      StateInv db.current_revision (read db st).state) ∧
    (∀ (V : Type) (db : DB V) (rev : Revision) (st : QueryState V),
      db.execute.changed_at ≤ db.current_revision →
      StateInv db.current_revision st →
      StateInv db.current_revision (maybe_changed_since db rev st).state) := by
  refine ⟨?_, ?_, ?_⟩
  · intro V rev m m' sv hm h
    rw [mark_value_as_verified_eq h]
    exact ⟨hm.1.trans hm.2, le_rfl⟩
  · intro V db st hex hst
    exact read_inv hex hst
  · intro V db rev st hex hst
    exact maybe_changed_since_inv hex hst

/-- Claim C8 witness: reading the stale sample memo at revision 5
leaves a state satisfying the stamp-ordering invariant. -/
theorem C8_stamp_ordering_witness :
    StateInv 5 (read cdb (QueryState.Memoized cmemo_stale)).state :=
  C8_stamp_ordering.2.1 Nat cdb (QueryState.Memoized cmemo_stale)
    (by decide)
    (fun m hm => by
      injection hm with hm
      exact hm ▸ ⟨by decide, by decide⟩)

end Salsa
